import Mathlib

/-!
Verification development for the flare-floss stackstring core:
a shallow embedding of `src/floss/stackstrings.py` and
`src/floss/features/features.py`, followed by theorems about the
embedded definitions.

Modelling conventions:
* Python integers (addresses, stack pointers) are `Int`; Python
  arithmetic on them is exact, so no wrap-around is modelled.
* The emulator (vivisect / envi) is out of scope for the repository and
  is modelled by its interface: a current stack pointer and a total
  memory function.  `Emu.readMemory` mirrors Python slicing semantics
  (`mbytes[offset:offset+size]`): a non-positive size yields the empty
  byte string rather than an error.
* The string-scanning collaborator (`strings.extract_ascii_strings`,
  `strings.extract_unicode_strings`) is out of scope and passed in as a
  function from a byte buffer to a list of (string, offset) records.
* Python floats in the feature scores are modelled as `ℚ`, matching the
  decimal literals of the source exactly.
* A Python generator that may raise mid-iteration is modelled as the
  pair (items yielded before any exception, optional exception).
-/

/-- `MAX_STACK_SIZE = 0x10000` from stackstrings.py. -/
def MAX_STACK_SIZE : Int := 0x10000

/-- `MIN_NUMBER_OF_MOVS = 5` from stackstrings.py. -/
def MIN_NUMBER_OF_MOVS : Nat := 5

/-- `CallContext` namedtuple from stackstrings.py. -/
structure CallContext where
  pc : Int
  sp : Int
  init_sp : Int
  stack_memory : List Nat
  deriving DecidableEq, Repr

/-- The emulator interface the monitor consumes: current stack counter
and a total byte-valued memory. -/
structure Emu where
  sp : Int
  mem : Int → Nat

/-- `emu.readMemory(va, size)`: mirrors Python slicing — a non-positive
size reads nothing. -/
def Emu.readMemory (emu : Emu) (va size : Int) : List Nat :=
  (List.range size.toNat).map (fun i => emu.mem (va + (i : Int)))

/-- Operand kinds distinguished by `is_stack_mov`: the first operand is
either an `envi.archs.i386.disasm.i386SibOper` or anything else. -/
inductive Operand
  | sib
  | nonSib
  deriving DecidableEq, Repr

/-- An executed instruction as the monitor sees it: address, mnemonic,
operand list. -/
structure Op where
  va : Int
  mnem : String
  operands : List Operand
  deriving DecidableEq, Repr

/-- `StackstringContextMonitor.is_stack_mov` (it ignores `emu`):
mnemonic starts with "mov"; with no operands count it regardless,
otherwise require the first operand to be a SIB operand. -/
def is_stack_mov (op : Op) : Bool :=
  if op.mnem.take 3 == "mov" then
    match op.operands with
    | [] => true
    | o :: _ => o == Operand.sib
  else false

/-- The state of a `StackstringContextMonitor`. -/
structure StackstringContextMonitor where
  ctxs : List CallContext
  init_sp : Int
  bb_ends : List Int
  mov_count : Nat

namespace StackstringContextMonitor

/-- `extract_context`: read the frame between the current stack counter
and the initial stack counter; skip (return unchanged) when the frame
size exceeds `MAX_STACK_SIZE`. -/
def extract_context (m : StackstringContextMonitor) (emu : Emu) (op : Op) :
    StackstringContextMonitor :=
  let stack_top := emu.sp
  let stack_bottom := m.init_sp
  let stack_size := stack_bottom - stack_top
  if stack_size > MAX_STACK_SIZE then m
  else
    { m with ctxs := m.ctxs ++ [⟨op.va, stack_top, stack_bottom, emu.readMemory stack_top stack_size⟩] }

/-- `apicall` hook: unconditionally attempt a capture (`pc`, `api`,
`argv` are ignored by the source). -/
def apicall (m : StackstringContextMonitor) (emu : Emu) (op : Op) :
    StackstringContextMonitor :=
  m.extract_context emu op

/-- First statement of `get_context_via_mov_heuristic`: bump the mov
counter when still under the threshold and the op is a stack mov. -/
def bumpMov (m : StackstringContextMonitor) (op : Op) : StackstringContextMonitor :=
  if m.mov_count < MIN_NUMBER_OF_MOVS ∧ is_stack_mov op = true then
    { m with mov_count := m.mov_count + 1 }
  else m

/-- `get_context_via_mov_heuristic`: count stack movs; at a basic-block
end capture when the counter reached the threshold and reset it. -/
def get_context_via_mov_heuristic (m : StackstringContextMonitor) (emu : Emu) (op : Op)
    (endpc : Int) : StackstringContextMonitor :=
  let m1 := m.bumpMov op
  if endpc ∈ m1.bb_ends then
    let m2 := if MIN_NUMBER_OF_MOVS ≤ m1.mov_count then m1.extract_context emu op else m1
    { m2 with mov_count := 0 }
  else m1

/-- `posthook` hook. -/
def posthook (m : StackstringContextMonitor) (emu : Emu) (op : Op) (endpc : Int) :
    StackstringContextMonitor :=
  m.get_context_via_mov_heuristic emu op endpc

end StackstringContextMonitor

/-- One monitor callback during an emulation run. -/
inductive Event
  | apicall (emu : Emu) (op : Op)
  | posthook (emu : Emu) (op : Op) (endpc : Int)

/-- Dispatch one event to the monitor. -/
def StackstringContextMonitor.step (m : StackstringContextMonitor) : Event → StackstringContextMonitor
  | .apicall emu op => m.apicall emu op
  | .posthook emu op endpc => m.posthook emu op endpc

/-- An emulation run as the monitor observes it: a fold over the event
sequence. -/
def runMonitor (m : StackstringContextMonitor) (evs : List Event) : StackstringContextMonitor :=
  evs.foldl StackstringContextMonitor.step m

/-- The architecture identity `vw.arch` as far as `getPointerSize`
inspects it. -/
inductive Arch
  | amd64
  | i386
  | otherArch (clsName : String)
  deriving DecidableEq, Repr

/-- `getPointerSize`: 8 for amd64, 4 for i386, otherwise raise
`NotImplementedError`. -/
def getPointerSize : Arch → Except String Nat
  | .amd64 => .ok 8
  | .i386 => .ok 4
  | .otherArch n => .error ("unexpected architecture: " ++ n)

/-- Nonempty all-'A' run: the `A+` part of the filter regexes. -/
def allA (l : List Char) : Bool :=
  !l.isEmpty && l.all (fun c => c == 'A')

/-- Consume one optional leading character (`c?` in a regex; greedy
matching is exact here because the rest of the pattern cannot start
with `c`). -/
def dropOpt (c : Char) (l : List Char) : List Char :=
  match l with
  | x :: rest => if x == c then rest else l
  | [] => []

/-- Membership in the language of `p?V?A+`. -/
def isArtifactCore (l : List Char) : Bool :=
  allA (dropOpt 'V' (dropOpt 'p' l))

/-- `FP_FILTER.match(s)` where `FP_FILTER = re.compile("^p?V?A+$")`:
Python's `$` also matches just before a single trailing newline. -/
def fpMatchL (l : List Char) : Bool :=
  isArtifactCore l || (l.getLast? == some '\n' && isArtifactCore l.dropLast)

/-- String-level `FP_FILTER.match`. -/
def fpMatch (s : String) : Bool := fpMatchL s.data

/-- `re.sub(FP_FILTER_SUB, "", s)` with `FP_FILTER_SUB =
re.compile("^p?VA")`: remove a leading `pVA` or `VA`; anchored at the
start so at most one removal happens. -/
def fpSubL : List Char → List Char
  | 'p' :: 'V' :: 'A' :: rest => rest
  | 'V' :: 'A' :: rest => rest
  | l => l

/-- String-level artifact-prefix strip. -/
def fpSub (s : String) : String := String.mk (fpSubL s.data)

/-- A (string, offset) record produced by the scanning collaborator
(`strings.extract_ascii_strings` / `strings.extract_unicode_strings`). -/
structure ScannedString where
  s : String
  offset : Nat
  deriving DecidableEq, Repr

/-- `StackString` namedtuple from stackstrings.py. -/
structure StackString where
  fva : Int
  s : String
  pc : Int
  sp : Int
  init_sp : Int
  offset : Nat
  frame_offset : Int
  deriving DecidableEq, Repr

/-- The running state of the `extract_stackstrings` generator: the
`seen` set (as a list), the records yielded so far, and the pending
exception if one has been raised. -/
structure GenState where
  seen : List String
  out : List StackString
  err : Option String
  deriving DecidableEq, Repr

/-- The `StackString` built by the yield statement of
`extract_stackstrings` for one surviving scanned string. -/
def mkSS (psize : Nat) (fva : Int) (ctx : CallContext) (str : ScannedString) : StackString :=
  ⟨fva, fpSub str.s, ctx.pc, ctx.sp, ctx.init_sp, str.offset,
    (ctx.init_sp - ctx.sp) - (str.offset : Int) - (psize : Int)⟩

/-- The body of the per-scanned-string loop of `extract_stackstrings`:
discard on `FP_FILTER` match, strip the prefix, skip duplicates, compute
`frame_offset` (which may raise `NotImplementedError`), yield, record in
`seen`.  Once an exception is pending nothing further executes. -/
def stepString (arch : Arch) (fva : Int) (ctx : CallContext) (st : GenState)
    (str : ScannedString) : GenState :=
  if st.err.isSome then st
  else if fpMatch str.s then st
  else if fpSub str.s ∈ st.seen then st
  else
    match getPointerSize arch with
    | .error e => { st with err := some e }
    | .ok psize => { st with seen := fpSub str.s :: st.seen, out := st.out ++ [mkSS psize fva ctx str] }

/-- Per-context processing: the ASCII scan loop followed by the UTF-16
scan loop over the captured frame bytes. -/
def stepCtx (arch : Arch) (fva : Int) (scanA scanU : List Nat → List ScannedString)
    (st : GenState) (ctx : CallContext) : GenState :=
  let st1 := (scanA ctx.stack_memory).foldl (stepString arch fva ctx) st
  (scanU ctx.stack_memory).foldl (stepString arch fva ctx) st1

/-- Per-function processing: reset `seen` to the empty set, then process
every captured context of this function in order. -/
def stepFva (arch : Arch) (contexts : Int → List CallContext)
    (scanA scanU : List Nat → List ScannedString) (st : GenState) (fva : Int) : GenState :=
  (contexts fva).foldl (stepCtx arch fva scanA scanU) { st with seen := [] }

/-- `extract_stackstrings(vw, selected_functions, bb_ends)`, with the
emulation of each function abstracted into `contexts` (the list
`extract_call_contexts` returns for that function) and the two scanning
collaborators abstracted into `scanA` / `scanU`.  Returns the records
yielded in order, and the exception that escaped the generator, if any. -/
def extract_stackstrings (arch : Arch) (contexts : Int → List CallContext)
    (scanA scanU : List Nat → List ScannedString) (selected_functions : List Int) :
    List StackString × Option String :=
  let st := selected_functions.foldl (stepFva arch contexts scanA scanU) ⟨[], [], none⟩
  (st.out, st.err)

/-- `BlockCount.score` from features.py. -/
def BlockCount.score (value : Int) : ℚ :=
  if value > 30 then 1/10
  else if 3 ≤ value ∧ value ≤ 10 then 1
  else 2/5

/-- `InstructionCount.score` from features.py. -/
def InstructionCount.score (value : Int) : ℚ :=
  if value > 10 then 4/5
  else 1/10

/-- `Arguments.score` from features.py; `value = len(args)`. -/
def Arguments.score (value : Nat) : ℚ :=
  if 1 ≤ value ∧ value ≤ 4 then 1
  else if 5 ≤ value ∧ value ≤ 6 then 1/2
  else 0

/-- The normalization constant a fresh `CallsTo` instance computes:
`floss.identify.get_max_calls_to(vw) or 1.0`.  The collaborator's result
is abstracted as `Option Nat`; Python's `or` replaces both `None` and a
falsy `0` with `1.0`. -/
def CallsTo.max_calls_to (corpusMax : Option Nat) : ℚ :=
  match corpusMax with
  | none => 1
  | some n => if n = 0 then 1 else (n : ℚ)

/-- `CallsTo.score`: `float(self.value) / float(self.max_calls_to)` with
`value = len(locations)`, the fan-in. -/
def CallsTo.score (value : Nat) (corpusMax : Option Nat) : ℚ :=
  (value : ℚ) / CallsTo.max_calls_to corpusMax

/-- The stack pointer the event's emulator reports. -/
def Event.spOf : Event → Int
  | .apicall emu _ => emu.sp
  | .posthook emu _ _ => emu.sp

/-- Tests that an event is a `posthook` whose `endpc` is not a
basic-block end. -/
def Event.nonEndPost (bb : List Int) : Event → Bool
  | .posthook _ _ endpc => decide (endpc ∉ bb)
  | .apicall _ _ => false

/-- Tests that an event is a `posthook` executing a qualifying
stack-directed move. -/
def Event.isStackMovPost : Event → Bool
  | .posthook _ op _ => is_stack_mov op
  | .apicall _ _ => false

/-- Spec-side: the scanned strings of one buffer that survive the
artifact filter. -/
def survivorsSpec (l : List ScannedString) : List ScannedString :=
  l.filter (fun str => !fpMatch str.s)

/-- Spec-side: the surviving occurrences of one captured context, ASCII
pass then UTF-16 pass, in scan order. -/
def ctxOccSpec (psize : Nat) (fva : Int) (scanA scanU : List Nat → List ScannedString)
    (ctx : CallContext) : List StackString :=
  (survivorsSpec (scanA ctx.stack_memory)).map (mkSS psize fva ctx)
    ++ (survivorsSpec (scanU ctx.stack_memory)).map (mkSS psize fva ctx)

/-- Spec-side: all surviving occurrences of one function across its
captured contexts, in context-iteration order. -/
def allOccSpec (psize : Nat) (fva : Int) (scanA scanU : List Nat → List ScannedString) :
    List CallContext → List StackString
  | [] => []
  | c :: r => ctxOccSpec psize fva scanA scanU c ++ allOccSpec psize fva scanA scanU r

/-- Spec-side first-occurrence deduplication keyed on the string text:
returns the extended seen set and the kept records. -/
def dedupAux (seen : List String) : List StackString → List String × List StackString
  | [] => (seen, [])
  | ss :: rest =>
    if ss.s ∈ seen then dedupAux seen rest
    else ((dedupAux (ss.s :: seen) rest).1, ss :: (dedupAux (ss.s :: seen) rest).2)

/-- Spec-side description of the full pipeline output when no error
occurs: per function, the first-occurrence deduplication of all
surviving occurrences, with a fresh seen set per function. -/
def specOutputs (psize : Nat) (contexts : Int → List CallContext)
    (scanA scanU : List Nat → List ScannedString) : List Int → List StackString
  | [] => []
  | f :: r => (dedupAux [] (allOccSpec psize f scanA scanU (contexts f))).2
      ++ specOutputs psize contexts scanA scanU r

/-! ## Monitor lemmas -/

namespace StackstringContextMonitor

lemma bumpMov_ctxs (m : StackstringContextMonitor) (op : Op) : (m.bumpMov op).ctxs = m.ctxs := by
  unfold bumpMov; split <;> rfl

lemma bumpMov_init_sp (m : StackstringContextMonitor) (op : Op) :
    (m.bumpMov op).init_sp = m.init_sp := by
  unfold bumpMov; split <;> rfl

lemma bumpMov_bb_ends (m : StackstringContextMonitor) (op : Op) :
    (m.bumpMov op).bb_ends = m.bb_ends := by
  unfold bumpMov; split <;> rfl

lemma bumpMov_mov_count (m : StackstringContextMonitor) (op : Op) :
    (m.bumpMov op).mov_count =
      if m.mov_count < MIN_NUMBER_OF_MOVS ∧ is_stack_mov op = true then m.mov_count + 1
      else m.mov_count := by
  unfold bumpMov; split <;> simp [*]

lemma extract_context_of_oversize (m : StackstringContextMonitor) (emu : Emu) (op : Op)
    (h : m.init_sp - emu.sp > MAX_STACK_SIZE) : m.extract_context emu op = m := by
  simp only [extract_context]
  rw [if_pos h]

lemma extract_context_of_fits (m : StackstringContextMonitor) (emu : Emu) (op : Op)
    (h : ¬ m.init_sp - emu.sp > MAX_STACK_SIZE) :
    m.extract_context emu op =
      { m with ctxs := m.ctxs ++ [⟨op.va, emu.sp, m.init_sp,
          emu.readMemory emu.sp (m.init_sp - emu.sp)⟩] } := by
  simp only [extract_context]
  rw [if_neg h]

lemma extract_context_init_sp (m : StackstringContextMonitor) (emu : Emu) (op : Op) :
    (m.extract_context emu op).init_sp = m.init_sp := by
  simp only [extract_context]; split_ifs <;> rfl

lemma extract_context_bb_ends (m : StackstringContextMonitor) (emu : Emu) (op : Op) :
    (m.extract_context emu op).bb_ends = m.bb_ends := by
  simp only [extract_context]; split_ifs <;> rfl

lemma extract_context_mov_count (m : StackstringContextMonitor) (emu : Emu) (op : Op) :
    (m.extract_context emu op).mov_count = m.mov_count := by
  simp only [extract_context]; split_ifs <;> rfl

lemma step_apicall (m : StackstringContextMonitor) (emu : Emu) (op : Op) :
    m.step (Event.apicall emu op) = m.extract_context emu op := rfl

lemma posthook_nonend (m : StackstringContextMonitor) (emu : Emu) (op : Op) (endpc : Int)
    (h : endpc ∉ m.bb_ends) : m.posthook emu op endpc = m.bumpMov op := by
  simp only [posthook, get_context_via_mov_heuristic]
  rw [if_neg]
  rw [bumpMov_bb_ends]
  exact h

lemma posthook_end (m : StackstringContextMonitor) (emu : Emu) (op : Op) (endpc : Int)
    (h : endpc ∈ m.bb_ends) :
    m.posthook emu op endpc =
      { (if MIN_NUMBER_OF_MOVS ≤ (m.bumpMov op).mov_count
           then (m.bumpMov op).extract_context emu op
           else m.bumpMov op) with mov_count := 0 } := by
  simp only [posthook, get_context_via_mov_heuristic]
  rw [if_pos]
  rw [bumpMov_bb_ends]
  exact h

lemma step_init_sp (m : StackstringContextMonitor) (e : Event) :
    (m.step e).init_sp = m.init_sp := by
  cases e with
  | apicall emu op => rw [step_apicall, extract_context_init_sp]
  | posthook emu op endpc =>
    by_cases h : endpc ∈ m.bb_ends
    · rw [show m.step (Event.posthook emu op endpc) = m.posthook emu op endpc from rfl,
        posthook_end m emu op endpc h]
      split_ifs with h5
      · simp only [extract_context_init_sp, bumpMov_init_sp]
      · simp only [bumpMov_init_sp]
    · rw [show m.step (Event.posthook emu op endpc) = m.posthook emu op endpc from rfl,
        posthook_nonend m emu op endpc h, bumpMov_init_sp]

lemma step_bb_ends (m : StackstringContextMonitor) (e : Event) :
    (m.step e).bb_ends = m.bb_ends := by
  cases e with
  | apicall emu op => rw [step_apicall, extract_context_bb_ends]
  | posthook emu op endpc =>
    by_cases h : endpc ∈ m.bb_ends
    · rw [show m.step (Event.posthook emu op endpc) = m.posthook emu op endpc from rfl,
        posthook_end m emu op endpc h]
      split_ifs with h5
      · simp only [extract_context_bb_ends, bumpMov_bb_ends]
      · simp only [bumpMov_bb_ends]
    · rw [show m.step (Event.posthook emu op endpc) = m.posthook emu op endpc from rfl,
        posthook_nonend m emu op endpc h, bumpMov_bb_ends]

end StackstringContextMonitor

lemma min_movs_eq : MIN_NUMBER_OF_MOVS = 5 := rfl

lemma max_stack_eq : MAX_STACK_SIZE = 65536 := rfl

lemma runMonitor_nil (m : StackstringContextMonitor) : runMonitor m [] = m := rfl

lemma runMonitor_cons (m : StackstringContextMonitor) (e : Event) (evs : List Event) :
    runMonitor m (e :: evs) = runMonitor (m.step e) evs := rfl

lemma runMonitor_append_one (m : StackstringContextMonitor) (evs : List Event) (e : Event) :
    runMonitor m (evs ++ [e]) = (runMonitor m evs).step e := by
  simp [runMonitor, List.foldl_append]

/-- Running only non-block-end posthooks leaves the capture list
untouched and saturates the mov counter at the threshold. -/
lemma runMonitor_nonend (evs : List Event) : ∀ (m : StackstringContextMonitor),
    evs.all (Event.nonEndPost m.bb_ends) = true →
    m.mov_count ≤ MIN_NUMBER_OF_MOVS →
    (runMonitor m evs).ctxs = m.ctxs ∧ (runMonitor m evs).init_sp = m.init_sp ∧
      (runMonitor m evs).bb_ends = m.bb_ends ∧
      (runMonitor m evs).mov_count =
        min (m.mov_count + evs.countP Event.isStackMovPost) MIN_NUMBER_OF_MOVS := by
  induction evs with
  | nil =>
    intro m _ hm
    refine ⟨rfl, rfl, rfl, ?_⟩
    simp only [runMonitor, List.foldl_nil, List.countP_nil]
    omega
  | cons e evs ih =>
    intro m hall hm
    rw [List.all_cons, Bool.and_eq_true] at hall
    obtain ⟨he, hall⟩ := hall
    cases e with
    | apicall emu op => simp [Event.nonEndPost] at he
    | posthook emu op endpc =>
      have hend : endpc ∉ m.bb_ends := by simpa [Event.nonEndPost] using he
      have hstep : m.step (Event.posthook emu op endpc) = m.bumpMov op :=
        StackstringContextMonitor.posthook_nonend m emu op endpc hend
      rw [runMonitor_cons, hstep]
      have hm1 : (m.bumpMov op).mov_count ≤ MIN_NUMBER_OF_MOVS := by
        rw [StackstringContextMonitor.bumpMov_mov_count]
        split_ifs with h
        · obtain ⟨h1, -⟩ := h; omega
        · omega
      have hall1 : evs.all (Event.nonEndPost (m.bumpMov op).bb_ends) = true := by
        rw [StackstringContextMonitor.bumpMov_bb_ends]; exact hall
      obtain ⟨h1, h2, h3, h4⟩ := ih (m.bumpMov op) hall1 hm1
      refine ⟨by rw [h1, StackstringContextMonitor.bumpMov_ctxs],
        by rw [h2, StackstringContextMonitor.bumpMov_init_sp],
        by rw [h3, StackstringContextMonitor.bumpMov_bb_ends], ?_⟩
      rw [h4, StackstringContextMonitor.bumpMov_mov_count, List.countP_cons]
      simp only [Event.isStackMovPost]
      by_cases hmov : is_stack_mov op = true
      · simp only [hmov, and_true, if_true, if_pos]
        split_ifs with h
        · omega
        · omega
      · rw [if_neg (fun hc => hmov hc.2), if_neg hmov]
        omega

/-- Claim C1: in every emulation run of the capture monitor, a basic
block executing exactly 4 qualifying stack-directed moves does not
trigger a capture at its block-end instruction; a block executing 5
such moves before (or at) its block-end instruction does trigger the
capture there (the frame fitting the size ceiling); and the mov counter
is reset to 0 whenever the executed instruction's `endpc` is in the
basic-block boundary index, regardless of whether a capture occurred. -/
theorem claim_C1 :
    (∀ (m : StackstringContextMonitor) (evs : List Event) (emu : Emu) (op : Op) (endpc : Int),
      m.mov_count = 0 →
      evs.all (Event.nonEndPost m.bb_ends) = true →
      endpc ∈ m.bb_ends →
      ((evs.countP Event.isStackMovPost + (if is_stack_mov op = true then 1 else 0) = 4 →
          (runMonitor m (evs ++ [Event.posthook emu op endpc])).ctxs = m.ctxs ∧
          (runMonitor m (evs ++ [Event.posthook emu op endpc])).mov_count = 0) ∧
       (evs.countP Event.isStackMovPost + (if is_stack_mov op = true then 1 else 0) = 5 →
          m.init_sp - emu.sp ≤ MAX_STACK_SIZE →
          (runMonitor m (evs ++ [Event.posthook emu op endpc])).ctxs
            = m.ctxs ++ [⟨op.va, emu.sp, m.init_sp, emu.readMemory emu.sp (m.init_sp - emu.sp)⟩] ∧
          (runMonitor m (evs ++ [Event.posthook emu op endpc])).mov_count = 0))) ∧
    (∀ (m : StackstringContextMonitor) (emu : Emu) (op : Op) (endpc : Int),
      endpc ∈ m.bb_ends →
      (m.step (Event.posthook emu op endpc)).mov_count = 0) := by
  constructor
  · intro m evs emu op endpc hm0 hall hend
    obtain ⟨hctxs, hinit, hbb, hmc⟩ := runMonitor_nonend evs m hall (by omega)
    have hrw : runMonitor m (evs ++ [Event.posthook emu op endpc])
        = (runMonitor m evs).step (Event.posthook emu op endpc) :=
      runMonitor_append_one m evs (Event.posthook emu op endpc)
    have hendf : endpc ∈ (runMonitor m evs).bb_ends := by rw [hbb]; exact hend
    have hstep : (runMonitor m evs).step (Event.posthook emu op endpc)
        = { (if MIN_NUMBER_OF_MOVS ≤ ((runMonitor m evs).bumpMov op).mov_count
               then ((runMonitor m evs).bumpMov op).extract_context emu op
               else (runMonitor m evs).bumpMov op) with mov_count := 0 } :=
      StackstringContextMonitor.posthook_end (runMonitor m evs) emu op endpc hendf
    have hbv : ((runMonitor m evs).bumpMov op).mov_count
        = min (evs.countP Event.isStackMovPost + (if is_stack_mov op = true then 1 else 0))
            MIN_NUMBER_OF_MOVS := by
      rw [StackstringContextMonitor.bumpMov_mov_count, hmc, hm0]
      by_cases hmov : is_stack_mov op = true
      · rw [if_pos hmov]
        split_ifs with hc
        · obtain ⟨hc1, -⟩ := hc
          rw [min_movs_eq] at hc1 ⊢
          omega
        · rw [Classical.not_and_iff_or_not_not] at hc
          rcases hc with hc1 | hc2
          · rw [min_movs_eq] at hc1 ⊢
            omega
          · exact absurd hmov hc2
      · rw [if_neg hmov, if_neg (fun hc => hmov hc.2)]
        omega
    constructor
    · intro h4
      rw [h4, min_movs_eq] at hbv
      have hlt : ¬ MIN_NUMBER_OF_MOVS ≤ ((runMonitor m evs).bumpMov op).mov_count := by
        rw [min_movs_eq]; omega
      rw [hrw, hstep, if_neg hlt]
      refine ⟨?_, rfl⟩
      show ((runMonitor m evs).bumpMov op).ctxs = m.ctxs
      rw [StackstringContextMonitor.bumpMov_ctxs, hctxs]
    · intro h5 hsz
      rw [h5, min_movs_eq] at hbv
      have hge : MIN_NUMBER_OF_MOVS ≤ ((runMonitor m evs).bumpMov op).mov_count := by
        rw [min_movs_eq]; omega
      have hbinit : ((runMonitor m evs).bumpMov op).init_sp = m.init_sp := by
        rw [StackstringContextMonitor.bumpMov_init_sp, hinit]
      have hfits : ¬ ((runMonitor m evs).bumpMov op).init_sp - emu.sp > MAX_STACK_SIZE := by
        rw [hbinit]; omega
      rw [hrw, hstep, if_pos hge,
        StackstringContextMonitor.extract_context_of_fits _ emu op hfits]
      refine ⟨?_, rfl⟩
      show ((runMonitor m evs).bumpMov op).ctxs ++
          [⟨op.va, emu.sp, ((runMonitor m evs).bumpMov op).init_sp,
            emu.readMemory emu.sp (((runMonitor m evs).bumpMov op).init_sp - emu.sp)⟩]
        = m.ctxs ++ [⟨op.va, emu.sp, m.init_sp, emu.readMemory emu.sp (m.init_sp - emu.sp)⟩]
      rw [StackstringContextMonitor.bumpMov_ctxs, hctxs, hbinit]
  · intro m emu op endpc hend
    rw [show m.step (Event.posthook emu op endpc) = m.posthook emu op endpc from rfl,
      StackstringContextMonitor.posthook_end m emu op endpc hend]

/-- Witness for C1: a block of five stack movs (`mov` with no operands)
ending at boundary address 10, with a 10-byte frame, captures exactly
one context there. -/
theorem claim_C1_witness :
    ((⟨[], 100, [10], 0⟩ : StackstringContextMonitor).mov_count = 0)
    ∧ ((List.replicate 5 (Event.posthook ⟨90, fun _ => 0⟩ ⟨1, "mov", []⟩ 0)).all
        (Event.nonEndPost (⟨[], 100, [10], 0⟩ : StackstringContextMonitor).bb_ends) = true)
    ∧ ((10 : Int) ∈ (⟨[], 100, [10], 0⟩ : StackstringContextMonitor).bb_ends)
    ∧ ((List.replicate 5 (Event.posthook ⟨90, fun _ => 0⟩ ⟨1, "mov", []⟩ 0)).countP
          Event.isStackMovPost + (if is_stack_mov ⟨6, "ret", []⟩ = true then 1 else 0) = 5)
    ∧ ((⟨[], 100, [10], 0⟩ : StackstringContextMonitor).init_sp - (⟨90, fun _ => 0⟩ : Emu).sp
          ≤ MAX_STACK_SIZE)
    ∧ ((runMonitor ⟨[], 100, [10], 0⟩
          (List.replicate 5 (Event.posthook ⟨90, fun _ => 0⟩ ⟨1, "mov", []⟩ 0)
            ++ [Event.posthook ⟨90, fun _ => 0⟩ ⟨6, "ret", []⟩ 10])).ctxs
        = [] ++ [⟨(6 : Int), 90, 100, Emu.readMemory ⟨90, fun _ => 0⟩ 90 (100 - 90)⟩]) :=
  ⟨rfl, by decide, by decide, by decide, by decide,
    ((claim_C1.1 ⟨[], 100, [10], 0⟩
        (List.replicate 5 (Event.posthook ⟨90, fun _ => 0⟩ ⟨1, "mov", []⟩ 0))
        ⟨90, fun _ => 0⟩ ⟨6, "ret", []⟩ 10 rfl (by decide) (by decide)).2
      (by decide) (by decide)).1⟩

/-- Any context present after one step is either old or was appended
with `init_sp` from the monitor, `sp` from the event's emulator, and a
frame size within the ceiling. -/
lemma step_ctxs_sub (m : StackstringContextMonitor) (e : Event) (ctx : CallContext)
    (h : ctx ∈ (m.step e).ctxs) :
    ctx ∈ m.ctxs ∨ (ctx.init_sp = m.init_sp ∧ ctx.sp = Event.spOf e ∧
      ctx.init_sp - ctx.sp ≤ MAX_STACK_SIZE) := by
  cases e with
  | apicall emu op =>
    rw [StackstringContextMonitor.step_apicall] at h
    by_cases hsz : m.init_sp - emu.sp > MAX_STACK_SIZE
    · rw [StackstringContextMonitor.extract_context_of_oversize m emu op hsz] at h
      exact Or.inl h
    · rw [StackstringContextMonitor.extract_context_of_fits m emu op hsz] at h
      have h2 : ctx ∈ m.ctxs ++ [⟨op.va, emu.sp, m.init_sp,
          emu.readMemory emu.sp (m.init_sp - emu.sp)⟩] := h
      rcases List.mem_append.mp h2 with h3 | h3
      · exact Or.inl h3
      · have h4 := List.mem_singleton.mp h3
        subst h4
        refine Or.inr ⟨rfl, rfl, ?_⟩
        show m.init_sp - emu.sp ≤ MAX_STACK_SIZE
        omega
  | posthook emu op endpc =>
    by_cases hend : endpc ∈ m.bb_ends
    · rw [show m.step (Event.posthook emu op endpc) = m.posthook emu op endpc from rfl,
        StackstringContextMonitor.posthook_end m emu op endpc hend] at h
      have h2 : ctx ∈ (if MIN_NUMBER_OF_MOVS ≤ (m.bumpMov op).mov_count
          then (m.bumpMov op).extract_context emu op else m.bumpMov op).ctxs := h
      split_ifs at h2 with h5
      · by_cases hsz : (m.bumpMov op).init_sp - emu.sp > MAX_STACK_SIZE
        · rw [StackstringContextMonitor.extract_context_of_oversize _ emu op hsz,
            StackstringContextMonitor.bumpMov_ctxs] at h2
          exact Or.inl h2
        · rw [StackstringContextMonitor.extract_context_of_fits _ emu op hsz] at h2
          have h3 : ctx ∈ (m.bumpMov op).ctxs ++ [⟨op.va, emu.sp, (m.bumpMov op).init_sp,
              emu.readMemory emu.sp ((m.bumpMov op).init_sp - emu.sp)⟩] := h2
          rw [StackstringContextMonitor.bumpMov_ctxs,
            StackstringContextMonitor.bumpMov_init_sp] at h3
          rcases List.mem_append.mp h3 with h4 | h4
          · exact Or.inl h4
          · have h6 := List.mem_singleton.mp h4
            subst h6
            refine Or.inr ⟨rfl, rfl, ?_⟩
            show m.init_sp - emu.sp ≤ MAX_STACK_SIZE
            rw [StackstringContextMonitor.bumpMov_init_sp] at hsz
            omega
      · rw [StackstringContextMonitor.bumpMov_ctxs] at h2
        exact Or.inl h2
    · rw [show m.step (Event.posthook emu op endpc) = m.posthook emu op endpc from rfl,
        StackstringContextMonitor.posthook_nonend m emu op endpc hend,
        StackstringContextMonitor.bumpMov_ctxs] at h
      exact Or.inl h

/-- Any context present after a run is either old or was appended with
the monitor's `init_sp`, a frame within the ceiling, and the stack
pointer of one of the run's events. -/
lemma runMonitor_ctxs_sub (evs : List Event) : ∀ (m : StackstringContextMonitor)
    (ctx : CallContext), ctx ∈ (runMonitor m evs).ctxs →
    ctx ∈ m.ctxs ∨ (ctx.init_sp = m.init_sp ∧ ctx.init_sp - ctx.sp ≤ MAX_STACK_SIZE ∧
      ∃ e ∈ evs, ctx.sp = Event.spOf e) := by
  induction evs with
  | nil => intro m ctx h; exact Or.inl h
  | cons e evs ih =>
    intro m ctx h
    rw [runMonitor_cons] at h
    rcases ih (m.step e) ctx h with h1 | ⟨h1, h2, ev, hev, h3⟩
    · rcases step_ctxs_sub m e ctx h1 with h4 | ⟨h4, h5, h6⟩
      · exact Or.inl h4
      · exact Or.inr ⟨h4, h6, e, List.mem_cons_self e evs, h5⟩
    · rw [StackstringContextMonitor.step_init_sp] at h1
      exact Or.inr ⟨h1, h2, ev, List.mem_cons_of_mem e hev, h3⟩

/-- Counterexample to claim C4 as stated: the monitor never checks that
the emulator's stack pointer is below `init_sp`.  When an `apicall`
arrives with `sp = 101 > init_sp = 100`, the frame size is negative,
which passes the only guard (`stack_size > MAX_STACK_SIZE`), and a
context with `stack_bottom < stack_top` is appended (the memory read of
negative size yields an empty buffer, as Python slicing does). -/
theorem claim_C4_counterexample :
    ((runMonitor ⟨[], 100, [], 0⟩ [Event.apicall ⟨101, fun _ => 0⟩ ⟨7, "call", []⟩]).ctxs
        = [⟨7, 101, 100, []⟩])
    ∧ ¬ ((⟨7, 101, 100, []⟩ : CallContext).init_sp ≥ (⟨7, 101, 100, []⟩ : CallContext).sp) :=
  ⟨by decide, by decide⟩

/-- Claim C4, amended: every appended context satisfies the enforced
ceiling `stack_bottom − stack_top ≤ MAX_STACK_SIZE`; and provided the
emulator's reported stack pointer never exceeds the monitor's `init_sp`
during the run, every appended context satisfies
`stack_bottom ≥ stack_top`.  (The monitor itself does not enforce the
latter; see the counterexample.) -/
theorem claim_C4_amended :
    (∀ (m : StackstringContextMonitor) (evs : List Event) (ctx : CallContext),
      ctx ∈ (runMonitor m evs).ctxs →
      ctx ∈ m.ctxs ∨ ctx.init_sp - ctx.sp ≤ MAX_STACK_SIZE) ∧
    (∀ (m : StackstringContextMonitor) (evs : List Event),
      evs.all (fun e => decide (Event.spOf e ≤ m.init_sp)) = true →
      ∀ ctx ∈ (runMonitor m evs).ctxs,
        ctx ∈ m.ctxs ∨ ctx.init_sp ≥ ctx.sp) := by
  constructor
  · intro m evs ctx h
    rcases runMonitor_ctxs_sub evs m ctx h with h1 | ⟨-, h2, -⟩
    · exact Or.inl h1
    · exact Or.inr h2
  · intro m evs hall ctx h
    rw [List.all_eq_true] at hall
    rcases runMonitor_ctxs_sub evs m ctx h with h1 | ⟨h1, -, e, hev, h3⟩
    · exact Or.inl h1
    · have h4 : Event.spOf e ≤ m.init_sp := of_decide_eq_true (hall e hev)
      refine Or.inr ?_
      rw [ge_iff_le, h3, h1]
      exact h4

/-- Witness for the amended C4: a well-behaved apicall (sp = 90 below
init_sp = 100) yields a context with `stack_bottom ≥ stack_top`. -/
theorem claim_C4_amended_witness :
    (([Event.apicall ⟨90, fun _ => 0⟩ ⟨7, "call", []⟩].all
        (fun e => decide (Event.spOf e ≤ (⟨[], 100, [], 0⟩
          : StackstringContextMonitor).init_sp))) = true)
    ∧ ((⟨7, 90, 100, Emu.readMemory ⟨90, fun _ => 0⟩ 90 (100 - 90)⟩ : CallContext)
        ∈ (runMonitor ⟨[], 100, [], 0⟩ [Event.apicall ⟨90, fun _ => 0⟩ ⟨7, "call", []⟩]).ctxs)
    ∧ ((⟨7, 90, 100, Emu.readMemory ⟨90, fun _ => 0⟩ 90 (100 - 90)⟩ : CallContext)
          ∈ (⟨[], 100, [], 0⟩ : StackstringContextMonitor).ctxs
        ∨ (⟨7, 90, 100, Emu.readMemory ⟨90, fun _ => 0⟩ 90 (100 - 90)⟩ : CallContext).init_sp
          ≥ (⟨7, 90, 100, Emu.readMemory ⟨90, fun _ => 0⟩ 90 (100 - 90)⟩ : CallContext).sp) :=
  ⟨by decide, by decide,
    claim_C4_amended.2 ⟨[], 100, [], 0⟩ [Event.apicall ⟨90, fun _ => 0⟩ ⟨7, "call", []⟩]
      (by decide) ⟨7, 90, 100, Emu.readMemory ⟨90, fun _ => 0⟩ 90 (100 - 90)⟩ (by decide)⟩

/-- Overwriting the mov counter with 0 erases the only field `bumpMov`
may have changed. -/
lemma bumpMov_reset (m : StackstringContextMonitor) (op : Op) :
    ({ m.bumpMov op with mov_count := 0 } : StackstringContextMonitor)
      = { m with mov_count := 0 } := by
  unfold StackstringContextMonitor.bumpMov
  split <;> rfl

/-- Claim C5: at both capture points, a frame larger than
`MAX_STACK_SIZE` (65536) bytes is skipped entirely — no context is
appended, no read is attempted, nothing is raised (the embedding is
total) — and the run continues unchanged: an oversized apicall is a
no-op for the whole run, and an oversized block-end posthook only
resets the mov counter; in particular a 70000-byte frame captures
nothing. -/
theorem claim_C5 :
    (∀ (m : StackstringContextMonitor) (emu : Emu) (op : Op),
      m.init_sp - emu.sp > MAX_STACK_SIZE → m.extract_context emu op = m) ∧
    (∀ (m : StackstringContextMonitor) (emu : Emu) (op : Op) (evs : List Event),
      m.init_sp - emu.sp > MAX_STACK_SIZE →
      runMonitor m (Event.apicall emu op :: evs) = runMonitor m evs) ∧
    (∀ (m : StackstringContextMonitor) (emu : Emu) (op : Op) (endpc : Int) (evs : List Event),
      m.init_sp - emu.sp > MAX_STACK_SIZE → endpc ∈ m.bb_ends →
      runMonitor m (Event.posthook emu op endpc :: evs)
        = runMonitor { m with mov_count := 0 } evs) ∧
    (∀ (m : StackstringContextMonitor) (emu : Emu) (op : Op),
      m.init_sp - emu.sp = 70000 → m.extract_context emu op = m) := by
  refine ⟨?_, ?_, ?_, ?_⟩
  · intro m emu op h
    exact StackstringContextMonitor.extract_context_of_oversize m emu op h
  · intro m emu op evs h
    rw [runMonitor_cons, StackstringContextMonitor.step_apicall,
      StackstringContextMonitor.extract_context_of_oversize m emu op h]
  · intro m emu op endpc evs h hend
    rw [runMonitor_cons]
    have hstep : m.step (Event.posthook emu op endpc) = { m with mov_count := 0 } := by
      rw [show m.step (Event.posthook emu op endpc) = m.posthook emu op endpc from rfl,
        StackstringContextMonitor.posthook_end m emu op endpc hend]
      split_ifs with h5
      · rw [StackstringContextMonitor.extract_context_of_oversize _ emu op
          (by rw [StackstringContextMonitor.bumpMov_init_sp]; exact h)]
        exact bumpMov_reset m op
      · exact bumpMov_reset m op
    rw [hstep]
  · intro m emu op h70
    exact StackstringContextMonitor.extract_context_of_oversize m emu op (by rw [h70]; decide)

/-- Witness for C5: a monitor whose initial stack pointer sits 70000
bytes above the emulator's current stack pointer captures nothing, at
an apicall checkpoint and at `extract_context` itself. -/
theorem claim_C5_witness :
    ((⟨[], 70000, [], 0⟩ : StackstringContextMonitor).init_sp - (⟨0, fun _ => 0⟩ : Emu).sp
        = 70000)
    ∧ ((⟨[], 70000, [], 0⟩ : StackstringContextMonitor).init_sp - (⟨0, fun _ => 0⟩ : Emu).sp
        > MAX_STACK_SIZE)
    ∧ (StackstringContextMonitor.extract_context ⟨[], 70000, [], 0⟩ ⟨0, fun _ => 0⟩
        ⟨3, "call", []⟩ = ⟨[], 70000, [], 0⟩)
    ∧ (runMonitor ⟨[], 70000, [], 0⟩ [Event.apicall ⟨0, fun _ => 0⟩ ⟨3, "call", []⟩]
        = runMonitor ⟨[], 70000, [], 0⟩ []) :=
  ⟨by decide, by decide,
    claim_C5.2.2.2 ⟨[], 70000, [], 0⟩ ⟨0, fun _ => 0⟩ ⟨3, "call", []⟩ (by decide),
    claim_C5.2.1 ⟨[], 70000, [], 0⟩ ⟨0, fun _ => 0⟩ ⟨3, "call", []⟩ [] (by decide)⟩

/-! ## Pipeline lemmas -/

lemma mkSS_s (psize : Nat) (fva : Int) (ctx : CallContext) (str : ScannedString) :
    (mkSS psize fva ctx str).s = fpSub str.s := rfl

lemma stepString_fpMatch (arch : Arch) (fva : Int) (ctx : CallContext) (st : GenState)
    (str : ScannedString) (hm : fpMatch str.s = true) :
    stepString arch fva ctx st str = st := by
  unfold stepString
  by_cases h1 : st.err.isSome = true
  · rw [if_pos h1]
  · rw [if_neg h1, if_pos hm]

lemma stepString_seen (arch : Arch) (fva : Int) (ctx : CallContext) (st : GenState)
    (str : ScannedString) (h1 : st.err = none) (hm : fpMatch str.s = false)
    (hs : fpSub str.s ∈ st.seen) :
    stepString arch fva ctx st str = st := by
  unfold stepString
  rw [if_neg (by simp [h1]), if_neg (by simp [hm]), if_pos hs]

lemma stepString_ok (arch : Arch) (psize : Nat) (harch : getPointerSize arch = Except.ok psize)
    (fva : Int) (ctx : CallContext) (st : GenState) (str : ScannedString)
    (h1 : st.err = none) (hm : fpMatch str.s = false) (hs : fpSub str.s ∉ st.seen) :
    stepString arch fva ctx st str
      = ⟨fpSub str.s :: st.seen, st.out ++ [mkSS psize fva ctx str], none⟩ := by
  obtain ⟨seen, out, err⟩ := st
  simp only at h1
  subst h1
  unfold stepString
  rw [if_neg (by simp), if_neg (by simp [hm]), if_neg hs, harch]

lemma foldl_stepString_ok (arch : Arch) (psize : Nat)
    (harch : getPointerSize arch = Except.ok psize) (fva : Int) (ctx : CallContext) :
    ∀ (l : List ScannedString) (seen : List String) (out : List StackString),
    l.foldl (stepString arch fva ctx) ⟨seen, out, none⟩
      = ⟨(dedupAux seen ((survivorsSpec l).map (mkSS psize fva ctx))).1,
         out ++ (dedupAux seen ((survivorsSpec l).map (mkSS psize fva ctx))).2, none⟩ := by
  intro l
  induction l with
  | nil => intro seen out; simp [survivorsSpec, dedupAux]
  | cons str l ih =>
    intro seen out
    by_cases hm : fpMatch str.s = true
    · rw [List.foldl_cons, stepString_fpMatch arch fva ctx _ str hm,
        show survivorsSpec (str :: l) = survivorsSpec l from by simp [survivorsSpec, hm]]
      exact ih seen out
    · have hm' : fpMatch str.s = false := by rw [← Bool.not_eq_true]; exact hm
      have hsurv : survivorsSpec (str :: l) = str :: survivorsSpec l := by
        simp [survivorsSpec, hm']
      rw [List.foldl_cons, hsurv, List.map_cons]
      by_cases hs : fpSub str.s ∈ seen
      · rw [stepString_seen arch fva ctx ⟨seen, out, none⟩ str rfl hm' hs,
          show dedupAux seen (mkSS psize fva ctx str
              :: (survivorsSpec l).map (mkSS psize fva ctx))
            = dedupAux seen ((survivorsSpec l).map (mkSS psize fva ctx)) from by
            simp only [dedupAux, mkSS_s]
            rw [if_pos hs]]
        exact ih seen out
      · rw [stepString_ok arch psize harch fva ctx ⟨seen, out, none⟩ str rfl hm' hs,
          show dedupAux seen (mkSS psize fva ctx str
              :: (survivorsSpec l).map (mkSS psize fva ctx))
            = ((dedupAux (fpSub str.s :: seen) ((survivorsSpec l).map (mkSS psize fva ctx))).1,
               mkSS psize fva ctx str
                 :: (dedupAux (fpSub str.s :: seen)
                      ((survivorsSpec l).map (mkSS psize fva ctx))).2) from by
            simp only [dedupAux, mkSS_s]
            rw [if_neg hs]]
        rw [ih (fpSub str.s :: seen) (out ++ [mkSS psize fva ctx str])]
        simp

lemma dedupAux_append (a : List StackString) : ∀ (b : List StackString) (seen : List String),
    dedupAux seen (a ++ b)
      = ((dedupAux (dedupAux seen a).1 b).1,
         (dedupAux seen a).2 ++ (dedupAux (dedupAux seen a).1 b).2) := by
  induction a with
  | nil => intro b seen; simp [dedupAux]
  | cons x a ih =>
    intro b seen
    rw [List.cons_append]
    by_cases hx : x.s ∈ seen
    · simp only [dedupAux, if_pos hx]
      exact ih b seen
    · simp only [dedupAux, if_neg hx]
      rw [ih b (x.s :: seen)]
      simp

lemma stepCtx_ok (arch : Arch) (psize : Nat) (harch : getPointerSize arch = Except.ok psize)
    (fva : Int) (scanA scanU : List Nat → List ScannedString) (ctx : CallContext)
    (seen : List String) (out : List StackString) :
    stepCtx arch fva scanA scanU ⟨seen, out, none⟩ ctx
      = ⟨(dedupAux seen (ctxOccSpec psize fva scanA scanU ctx)).1,
         out ++ (dedupAux seen (ctxOccSpec psize fva scanA scanU ctx)).2, none⟩ := by
  simp only [stepCtx, ctxOccSpec]
  rw [foldl_stepString_ok arch psize harch fva ctx (scanA ctx.stack_memory) seen out,
    foldl_stepString_ok arch psize harch fva ctx (scanU ctx.stack_memory),
    dedupAux_append]
  simp

lemma foldl_stepCtx_ok (arch : Arch) (psize : Nat)
    (harch : getPointerSize arch = Except.ok psize) (fva : Int)
    (scanA scanU : List Nat → List ScannedString) :
    ∀ (cl : List CallContext) (seen : List String) (out : List StackString),
    cl.foldl (stepCtx arch fva scanA scanU) ⟨seen, out, none⟩
      = ⟨(dedupAux seen (allOccSpec psize fva scanA scanU cl)).1,
         out ++ (dedupAux seen (allOccSpec psize fva scanA scanU cl)).2, none⟩ := by
  intro cl
  induction cl with
  | nil => intro seen out; simp [allOccSpec, dedupAux]
  | cons c cl ih =>
    intro seen out
    rw [List.foldl_cons, stepCtx_ok arch psize harch fva scanA scanU c seen out, ih]
    simp only [allOccSpec]
    rw [dedupAux_append]
    simp

lemma stepFva_ok (arch : Arch) (psize : Nat) (harch : getPointerSize arch = Except.ok psize)
    (contexts : Int → List CallContext) (scanA scanU : List Nat → List ScannedString)
    (st : GenState) (hst : st.err = none) (fva : Int) :
    stepFva arch contexts scanA scanU st fva
      = ⟨(dedupAux [] (allOccSpec psize fva scanA scanU (contexts fva))).1,
         st.out ++ (dedupAux [] (allOccSpec psize fva scanA scanU (contexts fva))).2, none⟩ := by
  obtain ⟨seen, out, err⟩ := st
  simp only at hst
  subst hst
  unfold stepFva
  exact foldl_stepCtx_ok arch psize harch fva scanA scanU (contexts fva) [] out

lemma foldl_stepFva_ok (arch : Arch) (psize : Nat)
    (harch : getPointerSize arch = Except.ok psize) (contexts : Int → List CallContext)
    (scanA scanU : List Nat → List ScannedString) :
    ∀ (fvas : List Int) (st : GenState), st.err = none →
    ((fvas.foldl (stepFva arch contexts scanA scanU) st).out
        = st.out ++ specOutputs psize contexts scanA scanU fvas)
    ∧ (fvas.foldl (stepFva arch contexts scanA scanU) st).err = none := by
  intro fvas
  induction fvas with
  | nil => intro st hst; exact ⟨by simp [specOutputs], hst⟩
  | cons f fvas ih =>
    intro st hst
    rw [List.foldl_cons, stepFva_ok arch psize harch contexts scanA scanU st hst f]
    obtain ⟨h1, h2⟩ := ih ⟨(dedupAux [] (allOccSpec psize f scanA scanU (contexts f))).1,
      st.out ++ (dedupAux [] (allOccSpec psize f scanA scanU (contexts f))).2, none⟩ rfl
    refine ⟨?_, h2⟩
    rw [h1]
    simp only [specOutputs]
    simp

/-- With a supported architecture, the generator never raises and its
output is exactly the spec-side per-function first-occurrence
deduplication of all surviving occurrences. -/
lemma extract_stackstrings_ok (arch : Arch) (psize : Nat)
    (harch : getPointerSize arch = Except.ok psize) (contexts : Int → List CallContext)
    (scanA scanU : List Nat → List ScannedString) (fvas : List Int) :
    extract_stackstrings arch contexts scanA scanU fvas
      = (specOutputs psize contexts scanA scanU fvas, none) := by
  simp only [extract_stackstrings]
  obtain ⟨h1, h2⟩ := foldl_stepFva_ok arch psize harch contexts scanA scanU fvas ⟨[], [], none⟩ rfl
  rw [h1, h2]
  simp

lemma dedupAux_mem (l : List StackString) : ∀ (seen : List String) (ss : StackString),
    ss ∈ (dedupAux seen l).2 → ss ∈ l ∧ ss.s ∉ seen := by
  induction l with
  | nil => intro seen ss h; simp [dedupAux] at h
  | cons x l ih =>
    intro seen ss h
    by_cases hx : x.s ∈ seen
    · simp only [dedupAux, if_pos hx] at h
      obtain ⟨h1, h2⟩ := ih seen ss h
      exact ⟨List.mem_cons_of_mem x h1, h2⟩
    · simp only [dedupAux, if_neg hx] at h
      rcases List.mem_cons.mp h with h1 | h1
      · subst h1
        exact ⟨List.mem_cons_self _ _, hx⟩
      · obtain ⟨h2, h3⟩ := ih (x.s :: seen) ss h1
        exact ⟨List.mem_cons_of_mem x h2, fun hc => h3 (List.mem_cons_of_mem _ hc)⟩

lemma dedupAux_find (l : List StackString) : ∀ (seen : List String) (ss : StackString),
    ss ∈ (dedupAux seen l).2 → l.find? (fun x => x.s == ss.s) = some ss := by
  induction l with
  | nil => intro seen ss h; simp [dedupAux] at h
  | cons y l ih =>
    intro seen ss h
    by_cases hy : y.s ∈ seen
    · simp only [dedupAux, if_pos hy] at h
      have hss := (dedupAux_mem l seen ss h).2
      have hne : (y.s == ss.s) = false := by
        rw [beq_eq_false_iff_ne]
        intro hc
        rw [hc] at hy
        exact hss hy
      rw [List.find?_cons_of_neg _ (by simp [hne])]
      exact ih seen ss h
    · simp only [dedupAux, if_neg hy] at h
      rcases List.mem_cons.mp h with h1 | h1
      · subst h1
        rw [List.find?_cons_of_pos _ (by simp)]
      · have hss := (dedupAux_mem l (y.s :: seen) ss h1).2
        have hne : (y.s == ss.s) = false := by
          rw [beq_eq_false_iff_ne]
          intro hc
          exact hss (by rw [← hc]; exact List.mem_cons_self _ _)
        rw [List.find?_cons_of_neg _ (by simp [hne])]
        exact ih (y.s :: seen) ss h1

lemma dedupAux_countP (l : List StackString) : ∀ (seen : List String) (t : String),
    (dedupAux seen l).2.countP (fun ss => ss.s == t)
      = if t ∈ l.map StackString.s ∧ t ∉ seen then 1 else 0 := by
  induction l with
  | nil => intro seen t; simp [dedupAux]
  | cons y l ih =>
    intro seen t
    by_cases hy : y.s ∈ seen
    · simp only [dedupAux, if_pos hy]
      rw [ih seen t]
      refine if_congr ?_ rfl rfl
      constructor
      · rintro ⟨h1, h2⟩
        exact ⟨by rw [List.map_cons]; exact List.mem_cons_of_mem _ h1, h2⟩
      · rintro ⟨h1, h2⟩
        rw [List.map_cons] at h1
        rcases List.mem_cons.mp h1 with h3 | h3
        · subst h3
          exact absurd hy h2
        · exact ⟨h3, h2⟩
    · simp only [dedupAux, if_neg hy]
      rw [List.countP_cons, ih (y.s :: seen) t]
      by_cases ht : t = y.s
      · subst ht
        rw [if_neg (fun hc => hc.2 (List.mem_cons_self _ _)), if_pos (by simp),
          if_pos ⟨by rw [List.map_cons]; exact List.mem_cons_self _ _, hy⟩]
      · have hne : ¬ ((y.s == t) = true) := by
          simp only [beq_iff_eq]
          exact fun hc => ht hc.symm
        rw [if_neg hne, add_zero]
        refine if_congr ?_ rfl rfl
        constructor
        · rintro ⟨h1, h2⟩
          exact ⟨by rw [List.map_cons]; exact List.mem_cons_of_mem _ h1,
            fun hc => h2 (List.mem_cons_of_mem _ hc)⟩
        · rintro ⟨h1, h2⟩
          rw [List.map_cons] at h1
          rcases List.mem_cons.mp h1 with h3 | h3
          · exact absurd h3 ht
          · refine ⟨h3, ?_⟩
            intro hc
            rcases List.mem_cons.mp hc with h4 | h4
            · exact ht h4
            · exact h2 h4

lemma specOutputs_mem (psize : Nat) (contexts : Int → List CallContext)
    (scanA scanU : List Nat → List ScannedString) :
    ∀ (fvas : List Int) (ss : StackString),
    ss ∈ specOutputs psize contexts scanA scanU fvas →
    ∃ fva ∈ fvas, ss ∈ (dedupAux [] (allOccSpec psize fva scanA scanU (contexts fva))).2 := by
  intro fvas
  induction fvas with
  | nil => intro ss h; simp [specOutputs] at h
  | cons f fvas ih =>
    intro ss h
    simp only [specOutputs] at h
    rcases List.mem_append.mp h with h1 | h1
    · exact ⟨f, List.mem_cons_self _ _, h1⟩
    · obtain ⟨fva, hf, h2⟩ := ih ss h1
      exact ⟨fva, List.mem_cons_of_mem _ hf, h2⟩

lemma allOccSpec_mem (psize : Nat) (fva : Int) (scanA scanU : List Nat → List ScannedString) :
    ∀ (cl : List CallContext) (ss : StackString),
    ss ∈ allOccSpec psize fva scanA scanU cl →
    ∃ ctx ∈ cl, ss ∈ ctxOccSpec psize fva scanA scanU ctx := by
  intro cl
  induction cl with
  | nil => intro ss h; simp [allOccSpec] at h
  | cons c cl ih =>
    intro ss h
    simp only [allOccSpec] at h
    rcases List.mem_append.mp h with h1 | h1
    · exact ⟨c, List.mem_cons_self _ _, h1⟩
    · obtain ⟨ctx, hc, h2⟩ := ih ss h1
      exact ⟨ctx, List.mem_cons_of_mem _ hc, h2⟩

lemma ctxOccSpec_mem (psize : Nat) (fva : Int) (scanA scanU : List Nat → List ScannedString)
    (ctx : CallContext) (ss : StackString) (h : ss ∈ ctxOccSpec psize fva scanA scanU ctx) :
    ∃ str : ScannedString,
      (str ∈ scanA ctx.stack_memory ∨ str ∈ scanU ctx.stack_memory)
      ∧ fpMatch str.s = false ∧ ss = mkSS psize fva ctx str := by
  simp only [ctxOccSpec, survivorsSpec] at h
  rcases List.mem_append.mp h with h1 | h1
  · obtain ⟨str, hstr, hss⟩ := List.mem_map.mp h1
    obtain ⟨hmem, hflt⟩ := List.mem_filter.mp hstr
    exact ⟨str, Or.inl hmem, by simpa using hflt, hss.symm⟩
  · obtain ⟨str, hstr, hss⟩ := List.mem_map.mp h1
    obtain ⟨hmem, hflt⟩ := List.mem_filter.mp hstr
    exact ⟨str, Or.inr hmem, by simpa using hflt, hss.symm⟩

/-- Claim C2: every yielded `StackString` has
`frame_offset = (init_sp − sp) − offset − pointer_size`, where the
pointer size is 8 on amd64 and 4 on i386. -/
theorem claim_C2 :
    (getPointerSize Arch.amd64 = Except.ok 8)
    ∧ (getPointerSize Arch.i386 = Except.ok 4)
    ∧ (∀ (arch : Arch) (psize : Nat), getPointerSize arch = Except.ok psize →
        ∀ (contexts : Int → List CallContext) (scanA scanU : List Nat → List ScannedString)
          (fvas : List Int),
        ∀ ss ∈ (extract_stackstrings arch contexts scanA scanU fvas).1,
          ss.frame_offset = (ss.init_sp - ss.sp) - (ss.offset : Int) - (psize : Int)) := by
  refine ⟨rfl, rfl, ?_⟩
  intro arch psize harch contexts scanA scanU fvas ss hss
  rw [extract_stackstrings_ok arch psize harch contexts scanA scanU fvas] at hss
  obtain ⟨fva, -, h1⟩ := specOutputs_mem psize contexts scanA scanU fvas ss hss
  have h2 := (dedupAux_mem _ _ _ h1).1
  obtain ⟨ctx, -, h3⟩ := allOccSpec_mem psize fva scanA scanU (contexts fva) ss h2
  obtain ⟨str, -, -, hss2⟩ := ctxOccSpec_mem psize fva scanA scanU ctx ss h3
  subst hss2
  rfl

/-- Witness for C2: a string at offset 2 in a 90-byte amd64 frame gets
`frame_offset = (100 − 10) − 2 − 8 = 80`. -/
theorem claim_C2_witness :
    (getPointerSize Arch.amd64 = Except.ok 8)
    ∧ ((⟨0, "hello", 0, 10, 100, 2, 80⟩ : StackString)
        ∈ (extract_stackstrings Arch.amd64 (fun _ => [⟨0, 10, 100, []⟩])
            (fun _ => [⟨"hello", 2⟩]) (fun _ => []) [0]).1)
    ∧ ((⟨0, "hello", 0, 10, 100, 2, 80⟩ : StackString).frame_offset
        = ((⟨0, "hello", 0, 10, 100, 2, 80⟩ : StackString).init_sp
            - (⟨0, "hello", 0, 10, 100, 2, 80⟩ : StackString).sp)
          - ((⟨0, "hello", 0, 10, 100, 2, 80⟩ : StackString).offset : Int) - (8 : Int)) :=
  ⟨rfl, by decide,
    claim_C2.2.2 Arch.amd64 8 rfl (fun _ => [⟨0, 10, 100, []⟩]) (fun _ => [⟨"hello", 2⟩])
      (fun _ => []) [0] ⟨0, "hello", 0, 10, 100, 2, 80⟩ (by decide)⟩

/-- Claim C7: with a supported architecture the pipeline output equals,
function by function (fresh seen set per function), the
first-occurrence deduplication keyed on the stripped text over all
captured contexts and both scanning passes; the dedup keeps exactly one
record per surviving text, namely the first occurrence in iteration
order. -/
theorem claim_C7 :
    ∀ (arch : Arch) (psize : Nat), getPointerSize arch = Except.ok psize →
    ∀ (contexts : Int → List CallContext) (scanA scanU : List Nat → List ScannedString)
      (fvas : List Int),
    (extract_stackstrings arch contexts scanA scanU fvas
        = (specOutputs psize contexts scanA scanU fvas, none))
    ∧ (∀ (l : List StackString) (t : String),
        (dedupAux [] l).2.countP (fun ss => ss.s == t)
          = if t ∈ l.map StackString.s then 1 else 0)
    ∧ (∀ (l : List StackString), ∀ ss ∈ (dedupAux [] l).2,
        l.find? (fun x => x.s == ss.s) = some ss) := by
  intro arch psize harch contexts scanA scanU fvas
  refine ⟨extract_stackstrings_ok arch psize harch contexts scanA scanU fvas, ?_, ?_⟩
  · intro l t
    rw [dedupAux_countP l [] t]
    refine if_congr ?_ rfl rfl
    simp
  · intro l ss h
    exact dedupAux_find l [] ss h

/-- Witness for C7: two captures in the same function both containing
the string "secret" yield exactly one record with that text. -/
theorem claim_C7_witness :
    (getPointerSize Arch.i386 = Except.ok 4)
    ∧ (extract_stackstrings Arch.i386 (fun _ => [⟨0, 0, 0, []⟩, ⟨1, 0, 0, []⟩])
        (fun _ => [⟨"secret", 0⟩]) (fun _ => []) [5]
      = (specOutputs 4 (fun _ => [⟨0, 0, 0, []⟩, ⟨1, 0, 0, []⟩])
          (fun _ => [⟨"secret", 0⟩]) (fun _ => []) [5], none))
    ∧ ((extract_stackstrings Arch.i386 (fun _ => [⟨0, 0, 0, []⟩, ⟨1, 0, 0, []⟩])
        (fun _ => [⟨"secret", 0⟩]) (fun _ => []) [5]).1.countP
          (fun ss => ss.s == "secret") = 1) :=
  ⟨rfl,
    (claim_C7 Arch.i386 4 rfl (fun _ => [⟨0, 0, 0, []⟩, ⟨1, 0, 0, []⟩])
      (fun _ => [⟨"secret", 0⟩]) (fun _ => []) [5]).1,
    by decide⟩

lemma stepString_out_err (arch : Arch) (e : String)
    (harch : getPointerSize arch = Except.error e) (fva : Int) (ctx : CallContext)
    (st : GenState) (str : ScannedString) :
    (stepString arch fva ctx st str).out = st.out := by
  unfold stepString
  split_ifs with h1 h2 h3
  · rfl
  · rfl
  · rfl
  · rw [harch]

lemma foldl_out_const {α : Type} (f : GenState → α → GenState)
    (hf : ∀ st a, (f st a).out = st.out) :
    ∀ (l : List α) (st : GenState), (l.foldl f st).out = st.out := by
  intro l
  induction l with
  | nil => intro st; rfl
  | cons a l ih =>
    intro st
    rw [List.foldl_cons, ih, hf]

lemma stepCtx_out_err (arch : Arch) (e : String)
    (harch : getPointerSize arch = Except.error e) (fva : Int)
    (scanA scanU : List Nat → List ScannedString) (st : GenState) (ctx : CallContext) :
    (stepCtx arch fva scanA scanU st ctx).out = st.out := by
  simp only [stepCtx]
  rw [foldl_out_const (stepString arch fva ctx)
      (fun st str => stepString_out_err arch e harch fva ctx st str) (scanU ctx.stack_memory),
    foldl_out_const (stepString arch fva ctx)
      (fun st str => stepString_out_err arch e harch fva ctx st str) (scanA ctx.stack_memory)]

/-- With an unsupported architecture the generator can never yield:
every yield is preceded by the `getPointerSize` call, which raises. -/
lemma extract_stackstrings_err (arch : Arch) (e : String)
    (harch : getPointerSize arch = Except.error e) (contexts : Int → List CallContext)
    (scanA scanU : List Nat → List ScannedString) (fvas : List Int) :
    (extract_stackstrings arch contexts scanA scanU fvas).1 = [] := by
  simp only [extract_stackstrings]
  have hstep : ∀ (st : GenState) (fva : Int),
      (stepFva arch contexts scanA scanU st fva).out = st.out := by
    intro st fva
    simp only [stepFva]
    rw [foldl_out_const (stepCtx arch fva scanA scanU)
      (fun st ctx => stepCtx_out_err arch e harch fva scanA scanU st ctx) (contexts fva)]
  rw [foldl_out_const (stepFva arch contexts scanA scanU) hstep fvas]

/-- Counterexample to claim C3 as stated: `extract_stackstrings` has no
per-function exception handling, so the `NotImplementedError` raised
while computing `frame_offset` for function 1 escapes the generator and
ends the whole run — the run over `[1, 2]` yields nothing at all and
surfaces the exception, even though function 2, processed under a
supported architecture, does yield a result. -/
theorem claim_C3_counterexample :
    (extract_stackstrings (Arch.otherArch "FooModule") (fun _ => [⟨0, 0, 0, []⟩])
        (fun _ => [⟨"hello", 0⟩]) (fun _ => []) [1, 2]
      = ([], some "unexpected architecture: FooModule"))
    ∧ (extract_stackstrings Arch.i386 (fun _ => [⟨0, 0, 0, []⟩])
        (fun _ => [⟨"hello", 0⟩]) (fun _ => []) [2]
      = ([⟨2, "hello", 0, 0, 0, 0, -4⟩], none)) :=
  ⟨by decide, by decide⟩

/-- Claim C3, amended: when the architecture's pointer width is
unknown, the `NotImplementedError` is not contained to the failing
function — it aborts the whole `extract_stackstrings` run, and no
`StackString` is yielded for any function in the selected list. -/
theorem claim_C3_amended :
    ∀ (arch : Arch) (e : String), getPointerSize arch = Except.error e →
    ∀ (contexts : Int → List CallContext) (scanA scanU : List Nat → List ScannedString)
      (fvas : List Int),
    (extract_stackstrings arch contexts scanA scanU fvas).1 = [] := by
  intro arch e harch contexts scanA scanU fvas
  exact extract_stackstrings_err arch e harch contexts scanA scanU fvas

/-- Witness for the amended C3: an unrecognized architecture yields no
records across a two-function run. -/
theorem claim_C3_amended_witness :
    (getPointerSize (Arch.otherArch "BarModule")
        = Except.error "unexpected architecture: BarModule")
    ∧ ((extract_stackstrings (Arch.otherArch "BarModule") (fun _ => [⟨0, 0, 0, []⟩])
        (fun _ => [⟨"hi", 0⟩]) (fun _ => []) [1, 2]).1 = []) :=
  ⟨rfl,
    claim_C3_amended (Arch.otherArch "BarModule") "unexpected architecture: BarModule" rfl
      (fun _ => [⟨0, 0, 0, []⟩]) (fun _ => [⟨"hi", 0⟩]) (fun _ => []) [1, 2]⟩

lemma fpSubL_eq_nil (l : List Char) (h : l ≠ []) :
    fpSubL l = [] ↔ l = ['p', 'V', 'A'] ∨ l = ['V', 'A'] := by
  constructor
  · intro he
    unfold fpSubL at he
    split at he
    · subst he; exact Or.inl rfl
    · subst he; exact Or.inr rfl
    · exact absurd he h
  · intro hc
    rcases hc with hc | hc <;> subst hc <;> rfl

/-- Claim C6: a scanned string is discarded entirely when `FP_FILTER`
matches it — on newline-free strings (the scanners produce printable
runs) the match is exactly a full match of `p?V?A+` — and an unmatched
string is yielded with only a leading `p?VA` prefix stripped; in
particular "pVAAA", "AAAA", "VA" produce no record and "pVAhello" is
yielded as "hello". -/
theorem claim_C6 :
    (∀ (arch : Arch) (fva : Int) (ctx : CallContext) (st : GenState) (str : ScannedString),
      fpMatch str.s = true → stepString arch fva ctx st str = st)
    ∧ (∀ (arch : Arch) (psize : Nat), getPointerSize arch = Except.ok psize →
        ∀ (fva : Int) (ctx : CallContext) (st : GenState) (str : ScannedString),
        st.err = none → fpMatch str.s = false → fpSub str.s ∉ st.seen →
        stepString arch fva ctx st str
          = ⟨fpSub str.s :: st.seen, st.out ++ [mkSS psize fva ctx str], none⟩)
    ∧ (∀ (s : String), s.data.getLast? ≠ some '\n' → fpMatch s = isArtifactCore s.data)
    ∧ (fpMatch "pVAAA" = true ∧ fpMatch "AAAA" = true ∧ fpMatch "VA" = true
        ∧ fpMatch "pVAhello" = false ∧ fpSub "pVAhello" = "hello")
    ∧ (extract_stackstrings Arch.i386 (fun _ => [⟨0, 0, 0, []⟩])
        (fun _ => [⟨"pVAAA", 0⟩, ⟨"AAAA", 4⟩, ⟨"VA", 8⟩, ⟨"pVAhello", 10⟩]) (fun _ => []) [0]
      = ([⟨0, "hello", 0, 0, 0, 10, -14⟩], none)) := by
  refine ⟨?_, ?_, ?_, by decide, by decide⟩
  · intro arch fva ctx st str hm
    exact stepString_fpMatch arch fva ctx st str hm
  · intro arch psize harch fva ctx st str h1 hm hs
    exact stepString_ok arch psize harch fva ctx st str h1 hm hs
  · intro s hnl
    unfold fpMatch fpMatchL
    have h1 : (s.data.getLast? == some '\n') = false := by
      rw [beq_eq_false_iff_ne]
      exact hnl
    rw [h1, Bool.false_and, Bool.or_false]

/-- Witness for C6: the filter rules applied at concrete inputs. -/
theorem claim_C6_witness :
    (fpMatch "pVAAA" = true)
    ∧ (stepString Arch.i386 0 ⟨0, 0, 0, []⟩ ⟨[], [], none⟩ ⟨"pVAAA", 0⟩ = ⟨[], [], none⟩)
    ∧ (getPointerSize Arch.i386 = Except.ok 4)
    ∧ (fpMatch "pVAhello" = false)
    ∧ (fpSub "pVAhello" ∉ (⟨[], [], none⟩ : GenState).seen)
    ∧ (stepString Arch.i386 0 ⟨0, 0, 0, []⟩ ⟨[], [], none⟩ ⟨"pVAhello", 10⟩
        = ⟨fpSub "pVAhello" :: (⟨[], [], none⟩ : GenState).seen,
           (⟨[], [], none⟩ : GenState).out ++ [mkSS 4 0 ⟨0, 0, 0, []⟩ ⟨"pVAhello", 10⟩], none⟩)
    ∧ (("pVAhello" : String).data.getLast? ≠ some '\n')
    ∧ (fpMatch "pVAhello" = isArtifactCore ("pVAhello" : String).data) :=
  ⟨by decide,
    claim_C6.1 Arch.i386 0 ⟨0, 0, 0, []⟩ ⟨[], [], none⟩ ⟨"pVAAA", 0⟩ (by decide),
    rfl, by decide, by decide,
    claim_C6.2.1 Arch.i386 4 rfl 0 ⟨0, 0, 0, []⟩ ⟨[], [], none⟩ ⟨"pVAhello", 10⟩ rfl
      (by decide) (by decide),
    by decide,
    claim_C6.2.2.1 "pVAhello" (by decide)⟩

/-- Claim C10: every yielded `StackString` has a nonempty text.  The
only strings whose artifact-stripped form is empty are "pVA" and "VA"
(and the empty string itself, which printable-run scanners never
produce), and both are discarded by the filter before stripping. -/
theorem claim_C10 :
    (∀ (s : String), s ≠ "" → (fpSub s = "" ↔ (s = "pVA" ∨ s = "VA")))
    ∧ (fpMatch "pVA" = true ∧ fpMatch "VA" = true)
    ∧ (∀ (s : String), s ≠ "" → fpMatch s = false → fpSub s ≠ "")
    ∧ (∀ (arch : Arch) (contexts : Int → List CallContext)
        (scanA scanU : List Nat → List ScannedString) (fvas : List Int),
      (∀ buf str, str ∈ scanA buf → str.s ≠ "") →
      (∀ buf str, str ∈ scanU buf → str.s ≠ "") →
      ∀ ss ∈ (extract_stackstrings arch contexts scanA scanU fvas).1, ss.s ≠ "") := by
  have key : ∀ (s : String), s ≠ "" → (fpSub s = "" ↔ (s = "pVA" ∨ s = "VA")) := by
    intro s hs
    obtain ⟨l⟩ := s
    have hl : l ≠ [] := by
      intro hc
      subst hc
      exact hs rfl
    constructor
    · intro he
      have h2 : fpSubL l = [] := congrArg String.data he
      rcases (fpSubL_eq_nil l hl).mp h2 with h1 | h1
      · left; subst h1; rfl
      · right; subst h1; rfl
    · intro hc
      rcases hc with hc | hc <;> rw [hc] <;> rfl
  have key3 : ∀ (s : String), s ≠ "" → fpMatch s = false → fpSub s ≠ "" := by
    intro s hs hm hc
    rcases (key s hs).mp hc with h1 | h1 <;> subst h1
    · have hT : fpMatch "pVA" = true := by decide
      rw [hT] at hm
      exact Bool.noConfusion hm
    · have hT : fpMatch "VA" = true := by decide
      rw [hT] at hm
      exact Bool.noConfusion hm
  refine ⟨key, ⟨by decide, by decide⟩, key3, ?_⟩
  intro arch contexts scanA scanU fvas hA hU ss hss
  cases harch : getPointerSize arch with
  | ok psize =>
    rw [extract_stackstrings_ok arch psize harch contexts scanA scanU fvas] at hss
    obtain ⟨fva, -, h1⟩ := specOutputs_mem psize contexts scanA scanU fvas ss hss
    have h2 := (dedupAux_mem _ _ _ h1).1
    obtain ⟨ctx, -, h3⟩ := allOccSpec_mem psize fva scanA scanU (contexts fva) ss h2
    obtain ⟨str, hscan, hflt, hss2⟩ := ctxOccSpec_mem psize fva scanA scanU ctx ss h3
    subst hss2
    show fpSub str.s ≠ ""
    rcases hscan with hsc | hsc
    · exact key3 str.s (hA ctx.stack_memory str hsc) hflt
    · exact key3 str.s (hU ctx.stack_memory str hsc) hflt
  | error e =>
    rw [extract_stackstrings_err arch e harch contexts scanA scanU fvas] at hss
    simp at hss

/-- Witness for C10: a yielded record from a concrete run has nonempty
text. -/
theorem claim_C10_witness :
    (fpMatch "pVA" = true)
    ∧ ((⟨0, "hello", 0, 0, 0, 0, -4⟩ : StackString)
        ∈ (extract_stackstrings Arch.i386 (fun _ => [⟨0, 0, 0, []⟩])
            (fun _ => [⟨"pVAhello", 0⟩, ⟨"pVA", 3⟩]) (fun _ => []) [0]).1)
    ∧ ((⟨0, "hello", 0, 0, 0, 0, -4⟩ : StackString).s ≠ "") :=
  ⟨by decide, by decide,
    claim_C10.2.2.2 Arch.i386 (fun _ => [⟨0, 0, 0, []⟩])
      (fun _ => [⟨"pVAhello", 0⟩, ⟨"pVA", 3⟩]) (fun _ => []) [0]
      (fun buf str hstr => by
        rcases List.mem_cons.mp hstr with h | h
        · subst h; decide
        · rw [List.mem_singleton.mp h]; decide)
      (fun buf str hstr => by simp at hstr)
      ⟨0, "hello", 0, 0, 0, 0, -4⟩ (by decide)⟩

/-- Claim C8: the feature score functions are exactly the specified
piecewise maps, including the stated boundary values. -/
theorem claim_C8 :
    (∀ (v : Int), (v > 30 → BlockCount.score v = 1/10)
      ∧ (3 ≤ v → v ≤ 10 → BlockCount.score v = 1)
      ∧ (¬ v > 30 → ¬ (3 ≤ v ∧ v ≤ 10) → BlockCount.score v = 2/5))
    ∧ (∀ (v : Int), (v > 10 → InstructionCount.score v = 4/5)
      ∧ (¬ v > 10 → InstructionCount.score v = 1/10))
    ∧ (∀ (v : Nat), (1 ≤ v → v ≤ 4 → Arguments.score v = 1)
      ∧ (5 ≤ v → v ≤ 6 → Arguments.score v = 1/2)
      ∧ (¬ (1 ≤ v ∧ v ≤ 4) → ¬ (5 ≤ v ∧ v ≤ 6) → Arguments.score v = 0))
    ∧ (BlockCount.score 3 = 1 ∧ BlockCount.score 2 = 2/5 ∧ BlockCount.score 10 = 1
        ∧ BlockCount.score 11 = 2/5 ∧ BlockCount.score 31 = 1/10
        ∧ InstructionCount.score 10 = 1/10 ∧ InstructionCount.score 11 = 4/5
        ∧ Arguments.score 4 = 1 ∧ Arguments.score 5 = 1/2 ∧ Arguments.score 7 = 0) := by
  refine ⟨?_, ?_, ?_, ?_⟩
  · intro v
    refine ⟨?_, ?_, ?_⟩
    · intro h
      simp only [BlockCount.score]
      rw [if_pos h]
    · intro h1 h2
      simp only [BlockCount.score]
      rw [if_neg (by omega), if_pos ⟨h1, h2⟩]
    · intro h1 h2
      simp only [BlockCount.score]
      rw [if_neg h1, if_neg h2]
  · intro v
    refine ⟨?_, ?_⟩
    · intro h
      simp only [InstructionCount.score]
      rw [if_pos h]
    · intro h
      simp only [InstructionCount.score]
      rw [if_neg h]
  · intro v
    refine ⟨?_, ?_, ?_⟩
    · intro h1 h2
      simp only [Arguments.score]
      rw [if_pos ⟨h1, h2⟩]
    · intro h1 h2
      simp only [Arguments.score]
      rw [if_neg (by omega), if_pos ⟨h1, h2⟩]
    · intro h1 h2
      simp only [Arguments.score]
      rw [if_neg h1, if_neg h2]
  · refine ⟨?_, ?_, ?_, ?_, ?_, ?_, ?_, ?_, ?_, ?_⟩ <;>
      norm_num [BlockCount.score, InstructionCount.score, Arguments.score]

/-- Witness for C8: the piecewise rules applied at the boundary
inputs. -/
theorem claim_C8_witness :
    (((31 : Int) > 30) ∧ BlockCount.score 31 = 1/10)
    ∧ (((3 : Int) ≤ 3) ∧ ((3 : Int) ≤ 10) ∧ BlockCount.score 3 = 1)
    ∧ ((¬ (11 : Int) > 30) ∧ (¬ ((3 : Int) ≤ 11 ∧ (11 : Int) ≤ 10))
        ∧ BlockCount.score 11 = 2/5)
    ∧ (((11 : Int) > 10) ∧ InstructionCount.score 11 = 4/5)
    ∧ ((¬ (10 : Int) > 10) ∧ InstructionCount.score 10 = 1/10)
    ∧ ((1 ≤ 4) ∧ (4 ≤ 4) ∧ Arguments.score 4 = 1)
    ∧ ((5 ≤ 5) ∧ (5 ≤ 6) ∧ Arguments.score 5 = 1/2)
    ∧ ((¬ (1 ≤ 7 ∧ 7 ≤ 4)) ∧ (¬ (5 ≤ 7 ∧ 7 ≤ 6)) ∧ Arguments.score 7 = 0) :=
  ⟨⟨by decide, (claim_C8.1 31).1 (by decide)⟩,
   ⟨by decide, by decide, (claim_C8.1 3).2.1 (by decide) (by decide)⟩,
   ⟨by decide, by decide, (claim_C8.1 11).2.2 (by decide) (by decide)⟩,
   ⟨by decide, (claim_C8.2.1 11).1 (by decide)⟩,
   ⟨by decide, (claim_C8.2.1 10).2 (by decide)⟩,
   ⟨by decide, by decide, (claim_C8.2.2.1 4).1 (by decide) (by decide)⟩,
   ⟨by decide, by decide, (claim_C8.2.2.1 5).2.1 (by decide) (by decide)⟩,
   ⟨by decide, by decide, (claim_C8.2.2.1 7).2.2 (by decide) (by decide)⟩⟩

/-- Claim C9: the CallsTo (fan-in) score is the fan-in divided by the
corpus maximum, the normalization constant defaults to 1 when no
maximum is available, and the divisor is never zero. -/
theorem claim_C9 :
    (CallsTo.score 5 (some 5) = 1)
    ∧ (CallsTo.score 0 (some 5) = 0)
    ∧ (CallsTo.max_calls_to none = 1)
    ∧ (∀ (corpusMax : Option Nat), CallsTo.max_calls_to corpusMax ≠ 0)
    ∧ (∀ (value : Nat) (corpusMax : Option Nat),
        CallsTo.score value corpusMax * CallsTo.max_calls_to corpusMax = (value : ℚ)) := by
  have hnz : ∀ (corpusMax : Option Nat), CallsTo.max_calls_to corpusMax ≠ 0 := by
    intro corpusMax
    cases corpusMax with
    | none => simp [CallsTo.max_calls_to]
    | some n =>
      simp only [CallsTo.max_calls_to]
      split_ifs with h
      · exact one_ne_zero
      · exact Nat.cast_ne_zero.mpr h
  refine ⟨by norm_num [CallsTo.score, CallsTo.max_calls_to],
    by norm_num [CallsTo.score, CallsTo.max_calls_to], rfl, hnz, ?_⟩
  intro value corpusMax
  exact div_mul_cancel₀ (value : ℚ) (hnz corpusMax)
